import Mathlib

/-!
Verification of the session-clustering core of `burp_time_analyzer.py`.

The program mines millisecond Unix timestamps out of a Burp capture file
(`extract_timestamps`, an external shell-pipeline step the spec designates as
the opaque "Timestamp Source"), sorts and deduplicates them, clusters them
into work sessions (`analyze_sessions`), applies a 5-minute minimum duration
floor to each session, aggregates per-day totals, and reports a summary
(`analyze_burp_project`).  Timestamps are Python integers, modelled as `Int`;
counts are modelled as `Nat`.  Python's float arithmetic in
`format_duration` and the `total_hours` figure is modelled as exact
arithmetic (integer floor division, respectively `ℚ`), which agrees with the
floats on all inputs whose intermediate magnitudes stay below 2^53.
-/

set_option autoImplicit false

namespace BurpTimeAnalyzer

/-- A work session record, mirroring the dict
`{'start': ..., 'end': ..., 'requests': ...}` built by `analyze_sessions`
(`burp_time_analyzer.py`, lines 70-74).  `end` is a Lean keyword, so that
field is named `stop`. -/
structure Session where
  start : Int
  stop : Int
  requests : Nat
  deriving Repr, DecidableEq

/-- The loop of `analyze_sessions` (lines 76-88): for each remaining
timestamp `ts`, if `ts - current_session['end'] > gap_ms` the current
session is finalized (appended to the result) and a fresh one started at
`ts`; otherwise the current session is extended (`end = ts`,
`requests += 1`).  After the loop the current session is appended
unconditionally (line 88). -/
def analyzeLoop (gap_ms : Int) (current_session : Session) :
    List Int → List Session
  | [] => [current_session]
  | ts :: rest =>
    if ts - current_session.stop > gap_ms then
      current_session :: analyzeLoop gap_ms ⟨ts, ts, 1⟩ rest
    else
      analyzeLoop gap_ms
        { current_session with
            stop := ts, requests := current_session.requests + 1 } rest

/-- Model of `analyze_sessions(timestamps, session_gap_minutes)`
(lines 62-89): groups timestamps into sessions.  Empty input returns `[]` (lines 64-65);
otherwise the first timestamp seeds the current session
(`start = end = timestamps[0]`, `requests = 1`, lines 70-74) and the loop
processes the tail with `gap_ms = session_gap_minutes * 60 * 1000`
(line 67). -/
def analyze_sessions (timestamps : List Int) (session_gap_minutes : Int) :
    List Session :=
  match timestamps with
  | [] => []
  | t :: rest => analyzeLoop (session_gap_minutes * 60 * 1000) ⟨t, t, 1⟩ rest

/-- Instrumented variant of `analyzeLoop` that additionally records, for
each emitted session, the list of input timestamps folded into it.  The
session component mirrors the source loop line by line; the member list is
the specification-level notion "timestamps assigned to this session". -/
def analyzeLoopMembers (gap_ms : Int) (current_session : Session)
    (members : List Int) : List Int → List (Session × List Int)
  | [] => [(current_session, members)]
  | ts :: rest =>
    if ts - current_session.stop > gap_ms then
      (current_session, members) ::
        analyzeLoopMembers gap_ms ⟨ts, ts, 1⟩ [ts] rest
    else
      analyzeLoopMembers gap_ms
        { current_session with
            stop := ts, requests := current_session.requests + 1 }
        (members ++ [ts]) rest

/-- Top-level `analyze_sessions` instrumented with member timestamps. -/
def analyze_sessions_members (timestamps : List Int)
    (session_gap_minutes : Int) : List (Session × List Int) :=
  match timestamps with
  | [] => []
  | t :: rest =>
    analyzeLoopMembers (session_gap_minutes * 60 * 1000) ⟨t, t, 1⟩ [t] rest

/-- The per-session duration computation of `analyze_burp_project`
(lines 151-155): `duration = session['end'] - session['start']`, then
clamped up to 300000 ms ("Minimum session is 5 minutes (even for single
request)"). -/
def effective_duration (session : Session) : Int :=
  let duration := session.stop - session.start
  if duration < 300000 then 300000 else duration

/-- Model of `format_duration(ms)` (lines 91-105).  Python computes
`seconds = ms / 1000` with float division and then floors with `//`, `%`
and `int(...)`; for a non-negative integer number of milliseconds this is
exactly integer floor division, modelled here on `Nat` after the negative
clamp (line 93-94 return `"0s"` for `ms < 0`). -/
def format_duration (ms : Int) : String :=
  if ms < 0 then "0s"
  else
    let seconds : Nat := ms.toNat / 1000
    let hours : Nat := seconds / 3600
    let minutes : Nat := seconds % 3600 / 60
    let secs : Nat := seconds % 60
    if hours > 0 then
      toString hours ++ "h " ++ toString minutes ++ "m"
    else if minutes > 0 then
      toString minutes ++ "m " ++ toString secs ++ "s"
    else
      toString secs ++ "s"

/-- One per-day bucket of `daily_work` (line 143):
`{'time': 0, 'sessions': 0, 'requests': 0}` as default value. -/
structure DayStats where
  time : Int
  sessions : Nat
  requests : Nat
  deriving Repr, DecidableEq

/-- Model of the `defaultdict` update of lines 159-161, on an insertion-ordered
association list (Python dicts preserve insertion order): the bucket of
`day_key` gets `duration` added to `time`, `sessions` incremented and
`reqs` added to `requests`; a missing key starts from the zero bucket. -/
def bumpDay (daily : List (String × DayStats)) (day_key : String)
    (duration : Int) (reqs : Nat) : List (String × DayStats) :=
  match daily with
  | [] => [(day_key, ⟨duration, 1, reqs⟩)]
  | (k, st) :: rest =>
    if k = day_key then
      (k, ⟨st.time + duration, st.sessions + 1, st.requests + reqs⟩) :: rest
    else
      (k, st) :: bumpDay rest day_key duration reqs

/-- The per-session accumulation loop of `analyze_burp_project`
(lines 142-161): running `total_work_time` and `daily_work`, each session
contributing its floor-clamped effective duration once, to the bucket of
`day_key = dayKey(session['start'])`.  The date-string conversion
(`strftime` on the local-time datetime, line 158) is kept abstract as the
function argument `dayKey`. -/
def reportLoop (dayKey : Int → String) :
    List Session → Int → List (String × DayStats) →
      Int × List (String × DayStats)
  | [], total_work_time, daily_work => (total_work_time, daily_work)
  | session :: rest, total_work_time, daily_work =>
    let duration := effective_duration session
    reportLoop dayKey rest (total_work_time + duration)
      (bumpDay daily_work (dayKey session.start) duration session.requests)

/-- Final `total_work_time` and `daily_work` after the loop of lines 142-161,
started from `0` and the empty dict. -/
def run_report (sessions : List Session) (dayKey : Int → String) :
    Int × List (String × DayStats) :=
  reportLoop dayKey sessions 0 []

/-- The structured summary returned by `analyze_burp_project`
(lines 197-202). -/
structure Summary where
  total_hours : ℚ
  total_days : Nat
  sessions : Nat
  requests : Nat
  deriving Repr, DecidableEq

/-- Model of `analyze_burp_project(burp_file, session_gap)`
(lines 111-202), with the
external extraction step (`extract_timestamps`, a shell pipeline the spec
treats as the opaque Timestamp Source) abstracted into the `timestamps`
argument, and console printing dropped.  If no timestamps were found the
function returns `None` before any session analysis (lines 121-123);
otherwise it clusters, aggregates, and returns the summary dict with
`total_hours = total_work_time / (1000 * 3600)` (line 190, modelled in
`ℚ`), `total_days = len(daily_work)` (line 191), `sessions = len(sessions)`
and `requests = len(timestamps)`. -/
def analyze_burp_project_core (timestamps : List Int) (session_gap : Int)
    (dayKey : Int → String) : Option Summary :=
  if timestamps.isEmpty then none
  else
    let sessions := analyze_sessions timestamps session_gap
    let r := run_report sessions dayKey
    some ⟨(r.1 : ℚ) / (1000 * 3600), r.2.length, sessions.length,
      timestamps.length⟩

/-- Sum of the `requests` fields of a session list. -/
def sumRequests (sessions : List Session) : Nat :=
  (sessions.map Session.requests).sum

/-- Sum of the `time` fields over all day buckets. -/
def sumDayTime (daily : List (String × DayStats)) : Int :=
  (daily.map (fun p => p.2.time)).sum

/-- Sum of the `sessions` counters over all day buckets. -/
def sumDaySessions (daily : List (String × DayStats)) : Nat :=
  (daily.map (fun p => p.2.sessions)).sum

/-- Sum of the `requests` counters over all day buckets. -/
def sumDayRequests (daily : List (String × DayStats)) : Nat :=
  (daily.map (fun p => p.2.requests)).sum

theorem sumRequests_nil : sumRequests [] = 0 := rfl

theorem sumRequests_cons (s : Session) (ss : List Session) :
    sumRequests (s :: ss) = s.requests + sumRequests ss := by
  simp [sumRequests]

/-- The loop conserves the request count unconditionally: no sortedness or
gap-positivity assumption is needed. -/
theorem analyzeLoop_sumRequests (gap_ms : Int) (cur : Session)
    (l : List Int) :
    sumRequests (analyzeLoop gap_ms cur l) = cur.requests + l.length := by
  induction l generalizing cur with
  | nil => simp [analyzeLoop, sumRequests]
  | cons ts rest ih =>
    by_cases h : ts - cur.stop > gap_ms
    · simp only [analyzeLoop, if_pos h, sumRequests_cons, ih, List.length_cons]
      omega
    · simp only [analyzeLoop, if_neg h, ih, List.length_cons]
      omega

/-- The loop never returns an empty list. -/
theorem analyzeLoop_ne_nil (gap_ms : Int) (cur : Session) (l : List Int) :
    analyzeLoop gap_ms cur l ≠ [] := by
  induction l generalizing cur with
  | nil => simp [analyzeLoop]
  | cons ts rest ih =>
    by_cases h : ts - cur.stop > gap_ms
    · simp [analyzeLoop, if_pos h]
    · simpa [analyzeLoop, if_neg h] using ih _

/-- Main loop invariant: if the current session is well-formed
(`start ≤ stop`) and the remaining timestamps are non-decreasing starting
no earlier than the current session's end, then every produced session is
well-formed, adjacent produced sessions are separated by more than the gap,
and the first produced session starts where the current one does. -/
theorem analyzeLoop_invariant (gap_ms : Int) (cur : Session) (l : List Int)
    (hcur : cur.start ≤ cur.stop)
    (hl : List.Chain (fun a b : Int => a ≤ b) cur.stop l) :
    (∀ s ∈ analyzeLoop gap_ms cur l, s.start ≤ s.stop) ∧
    List.Chain' (fun a b => b.start - a.stop > gap_ms)
      (analyzeLoop gap_ms cur l) ∧
    (analyzeLoop gap_ms cur l).head?.map Session.start = some cur.start := by
  induction l generalizing cur with
  | nil =>
    refine ⟨?_, ?_, ?_⟩ <;> simp [analyzeLoop, hcur]
  | cons ts rest ih =>
    obtain ⟨h1, h2⟩ := List.chain_cons.mp hl
    by_cases h : ts - cur.stop > gap_ms
    · obtain ⟨ih1, ih2, ih3⟩ := ih ⟨ts, ts, 1⟩ le_rfl h2
      refine ⟨?_, ?_, ?_⟩
      · intro s hs
        simp only [analyzeLoop, if_pos h, List.mem_cons] at hs
        rcases hs with rfl | hs
        · exact hcur
        · exact ih1 s hs
      · simp only [analyzeLoop, if_pos h]
        refine List.chain'_cons'.mpr ⟨?_, ih2⟩
        intro b hb
        have hb' : (analyzeLoop gap_ms ⟨ts, ts, 1⟩ rest).head? = some b := hb
        rw [hb'] at ih3
        simp only [Option.map_some] at ih3
        have : b.start = ts := Option.some.inj ih3
        rw [this]
        exact h
      · simp [analyzeLoop, if_pos h]
    · have hcur' : cur.start ≤ ts := le_trans hcur h1
      obtain ⟨ih1, ih2, ih3⟩ :=
        ih { cur with stop := ts, requests := cur.requests + 1 } hcur' h2
      refine ⟨?_, ?_, ?_⟩
      · intro s hs
        simp only [analyzeLoop, if_neg h] at hs
        exact ih1 s hs
      · simp only [analyzeLoop, if_neg h]
        exact ih2
      · simp only [analyzeLoop, if_neg h]
        exact ih3

/-- Adjacent separation plus per-session well-formedness yields full
pairwise separation. -/
theorem chain'_sep_pairwise (ss : List Session)
    (hws : ∀ s ∈ ss, s.start ≤ s.stop)
    (hchain : List.Chain' (fun a b => a.stop < b.start) ss) :
    List.Pairwise (fun a b => a.stop < b.start) ss := by
  induction ss with
  | nil => simp
  | cons a l ih =>
    obtain ⟨hhead, htail⟩ := List.chain'_cons'.mp hchain
    have hpl := ih (fun s hs => hws s (List.mem_cons_of_mem _ hs)) htail
    refine List.pairwise_cons.mpr ⟨?_, hpl⟩
    intro b hb
    cases l with
    | nil => simp at hb
    | cons c t =>
      have hac : a.stop < c.start := hhead c rfl
      rcases List.mem_cons.mp hb with rfl | hbt
      · exact hac
      · have hcb : c.stop < b.start := (List.pairwise_cons.mp hpl).1 b hbt
        have hcc : c.start ≤ c.stop := hws c (by simp)
        omega

/-- In a non-decreasing list, the head is a lower bound on the members. -/
theorem chain'_head_le (a : Int) (t : List Int)
    (h : List.Chain (fun x y : Int => x ≤ y) a t) :
    ∀ x ∈ t, a ≤ x := by
  induction t generalizing a with
  | nil => simp
  | cons b t ih =>
    obtain ⟨hab, hbt⟩ := List.chain_cons.mp h
    intro x hx
    rcases List.mem_cons.mp hx with rfl | hxt
    · exact hab
    · exact le_trans hab (ih b hbt x hxt)

/-- In a non-decreasing list, the last element is an upper bound on the
members. -/
theorem chain'_le_getLast (T : List Int)
    (h : List.Chain' (fun x y : Int => x ≤ y) T) (hne : T ≠ []) :
    ∀ x ∈ T, x ≤ T.getLast hne := by
  induction T with
  | nil => simp
  | cons a t ih =>
    intro x hx
    cases t with
    | nil =>
      simp only [List.mem_singleton] at hx
      subst hx
      simp [List.getLast]
    | cons b u =>
      have h1 : a ≤ b := (List.chain'_cons.mp h).1
      have h2 := (List.chain'_cons.mp h).2
      have hbu : (b :: u) ≠ [] := by simp
      rw [List.getLast_cons hbu]
      rcases List.mem_cons.mp hx with rfl | hxt
      · exact le_trans h1 (ih h2 hbu b (by simp))
      · exact ih h2 hbu x hxt

/-- If every remaining timestamp is within the gap of its predecessor
(starting from the current session's end), the loop never splits: it
returns the single current session extended over the whole tail. -/
theorem analyzeLoop_one_session (gap_ms : Int) (cur : Session)
    (l : List Int)
    (h : List.Chain (fun a b : Int => b - a ≤ gap_ms) cur.stop l) :
    analyzeLoop gap_ms cur l =
      [⟨cur.start, (cur.stop :: l).getLast (by simp),
        cur.requests + l.length⟩] := by
  induction l generalizing cur with
  | nil => simp [analyzeLoop, List.getLast]
  | cons ts rest ih =>
    obtain ⟨h1, h2⟩ := List.chain_cons.mp h
    have hsplit : ¬ ts - cur.stop > gap_ms := by omega
    have hrest : (ts :: rest) ≠ [] := by simp
    rw [List.getLast_cons hrest]
    simp only [analyzeLoop, if_neg hsplit]
    rw [ih { cur with stop := ts, requests := cur.requests + 1 } h2]
    simp only [List.length_cons]
    congr 2
    omega

/-- If every remaining timestamp is more than the gap after its
predecessor (starting from the current session's end), every step splits:
each timestamp becomes its own singleton session. -/
theorem analyzeLoop_all_split (gap_ms : Int) (cur : Session) (l : List Int)
    (h : List.Chain (fun a b : Int => b - a > gap_ms) cur.stop l) :
    analyzeLoop gap_ms cur l =
      cur :: l.map (fun t => ⟨t, t, 1⟩) := by
  induction l generalizing cur with
  | nil => simp [analyzeLoop]
  | cons ts rest ih =>
    obtain ⟨h1, h2⟩ := List.chain_cons.mp h
    simp only [analyzeLoop, if_pos h1, List.map_cons]
    rw [ih ⟨ts, ts, 1⟩ h2]

/-- The instrumented loop projects onto the plain loop: forgetting the
member lists recovers `analyzeLoop` exactly. -/
theorem analyzeLoopMembers_fst (gap_ms : Int) (cur : Session)
    (mem : List Int) (l : List Int) :
    (analyzeLoopMembers gap_ms cur mem l).map Prod.fst =
      analyzeLoop gap_ms cur l := by
  induction l generalizing cur mem with
  | nil => simp [analyzeLoopMembers, analyzeLoop]
  | cons ts rest ih =>
    by_cases h : ts - cur.stop > gap_ms
    · simp only [analyzeLoopMembers, analyzeLoop, if_pos h, List.map_cons]
      rw [ih]
    · simp only [analyzeLoopMembers, analyzeLoop, if_neg h]
      rw [ih]

/-- Concatenating the member lists of the instrumented loop, in session
order, reproduces the accumulated members followed by the remaining
input: member assignment is a partition of the input in order. -/
theorem analyzeLoopMembers_flatten (gap_ms : Int) (cur : Session)
    (mem : List Int) (l : List Int) :
    ((analyzeLoopMembers gap_ms cur mem l).map Prod.snd).flatten =
      mem ++ l := by
  induction l generalizing cur mem with
  | nil => simp [analyzeLoopMembers]
  | cons ts rest ih =>
    by_cases h : ts - cur.stop > gap_ms
    · simp only [analyzeLoopMembers, if_pos h, List.map_cons,
        List.flatten_cons]
      rw [ih]
      simp
    · simp only [analyzeLoopMembers, if_neg h]
      rw [ih]
      simp

/-- Flattening the member lists of `analyze_sessions_members` gives back
the input list itself. -/
theorem analyze_sessions_members_flatten (T : List Int) (G : Int) :
    ((analyze_sessions_members T G).map Prod.snd).flatten = T := by
  cases T with
  | nil => simp [analyze_sessions_members]
  | cons t rest =>
    simp only [analyze_sessions_members]
    rw [analyzeLoopMembers_flatten]
    simp

/-- Each `bumpDay` update adds exactly `duration` to the day-time grand
total, exactly one to the session grand total, and exactly `reqs` to the
request grand total, whether the key is present or fresh. -/
theorem bumpDay_sums (daily : List (String × DayStats)) (day_key : String)
    (duration : Int) (reqs : Nat) :
    sumDayTime (bumpDay daily day_key duration reqs) =
      sumDayTime daily + duration ∧
    sumDaySessions (bumpDay daily day_key duration reqs) =
      sumDaySessions daily + 1 ∧
    sumDayRequests (bumpDay daily day_key duration reqs) =
      sumDayRequests daily + reqs := by
  induction daily with
  | nil => simp [bumpDay, sumDayTime, sumDaySessions, sumDayRequests]
  | cons p rest ih =>
    obtain ⟨k, st⟩ := p
    by_cases h : k = day_key
    · simp only [bumpDay, if_pos h, sumDayTime, sumDaySessions,
        sumDayRequests, List.map_cons, List.sum_cons]
      refine ⟨by omega, by omega, by omega⟩
    · obtain ⟨ih1, ih2, ih3⟩ := ih
      simp only [bumpDay, if_neg h, sumDayTime, sumDaySessions,
        sumDayRequests, List.map_cons, List.sum_cons] at ih1 ih2 ih3 ⊢
      refine ⟨by omega, by omega, by omega⟩

/-- Invariant of `reportLoop`: the final running total, day-time sum, session
count and request count each grow by the corresponding totals over the
processed sessions. -/
theorem reportLoop_sums (dayKey : Int → String) (ss : List Session)
    (total : Int) (daily : List (String × DayStats)) :
    (reportLoop dayKey ss total daily).1 =
      total + (ss.map effective_duration).sum ∧
    sumDayTime (reportLoop dayKey ss total daily).2 =
      sumDayTime daily + (ss.map effective_duration).sum ∧
    sumDaySessions (reportLoop dayKey ss total daily).2 =
      sumDaySessions daily + ss.length ∧
    sumDayRequests (reportLoop dayKey ss total daily).2 =
      sumDayRequests daily + sumRequests ss := by
  induction ss generalizing total daily with
  | nil => simp [reportLoop, sumRequests]
  | cons s rest ih =>
    simp only [reportLoop, List.map_cons, List.sum_cons, List.length_cons,
      sumRequests_cons]
    obtain ⟨ih1, ih2, ih3, ih4⟩ :=
      ih (total + effective_duration s)
        (bumpDay daily (dayKey s.start) (effective_duration s) s.requests)
    obtain ⟨b1, b2, b3⟩ :=
      bumpDay_sums daily (dayKey s.start) (effective_duration s) s.requests
    refine ⟨?_, ?_, ?_, ?_⟩
    · rw [ih1]; omega
    · rw [ih2, b1]; omega
    · rw [ih3, b2]; omega
    · rw [ih4, b3]; omega

/-- C2: the split test is strict greater-than.  A timestamp `t` whose
distance from the current session's end is exactly the gap threshold (in
milliseconds) is absorbed into the current session (extending its end and
request count) and does not start a new one; only
`t - current.end > gap_threshold_ms` finalizes the current session and
starts a new one at `t`. -/
theorem claim2_exact_gap_absorbs (G : Int) (cur : Session) (t : Int)
    (rest : List Int) :
    (t - cur.stop = G * 60 * 1000 →
      analyzeLoop (G * 60 * 1000) cur (t :: rest) =
        analyzeLoop (G * 60 * 1000)
          { cur with stop := t, requests := cur.requests + 1 } rest) ∧
    (t - cur.stop > G * 60 * 1000 →
      analyzeLoop (G * 60 * 1000) cur (t :: rest) =
        cur :: analyzeLoop (G * 60 * 1000) ⟨t, t, 1⟩ rest) := by
  constructor
  · intro h
    simp only [analyzeLoop]
    rw [if_neg (by omega)]
  · intro h
    simp only [analyzeLoop]
    rw [if_pos h]

theorem claim2_witness :
    analyzeLoop (30 * 60 * 1000) ⟨0, 0, 1⟩ [1800000] =
      analyzeLoop (30 * 60 * 1000)
        { (⟨0, 0, 1⟩ : Session) with
            stop := 1800000, requests := (⟨0, 0, 1⟩ : Session).requests + 1 }
        [] ∧
    analyzeLoop (30 * 60 * 1000) ⟨0, 0, 1⟩ [1800001] =
      (⟨0, 0, 1⟩ : Session) ::
        analyzeLoop (30 * 60 * 1000) ⟨1800001, 1800001, 1⟩ [] :=
  ⟨(claim2_exact_gap_absorbs 30 ⟨0, 0, 1⟩ 1800000 []).1 (by decide),
   (claim2_exact_gap_absorbs 30 ⟨0, 0, 1⟩ 1800001 []).2 (by decide)⟩

/-- C3: the effective duration of every finalized session equals
`max(end - start, 300000)` milliseconds, is never below 300000 ms, and is
exactly the quantity summed into `total_work_time`. -/
theorem claim3_effective_duration_floor :
    (∀ s : Session, effective_duration s = max (s.stop - s.start) 300000) ∧
    (∀ s : Session, 300000 ≤ effective_duration s) ∧
    (∀ (ss : List Session) (dayKey : Int → String),
      (run_report ss dayKey).1 = (ss.map effective_duration).sum) := by
  refine ⟨?_, ?_, ?_⟩
  · intro s
    simp only [effective_duration]
    split <;> omega
  · intro s
    simp only [effective_duration]
    split <;> omega
  · intro ss dayKey
    have h := (reportLoop_sums dayKey ss 0 []).1
    simpa [run_report] using h

/-- C5: daily aggregation is sum-preserving — per-day effective times sum
to the grand total work time, per-day session counts sum to the number of
sessions, and per-day request counts sum to the total request count. -/
theorem claim5_daily_aggregation_sums (ss : List Session)
    (dayKey : Int → String) :
    sumDayTime (run_report ss dayKey).2 = (run_report ss dayKey).1 ∧
    sumDaySessions (run_report ss dayKey).2 = ss.length ∧
    sumDayRequests (run_report ss dayKey).2 = sumRequests ss := by
  obtain ⟨h1, h2, h3, h4⟩ := reportLoop_sums dayKey ss 0 []
  refine ⟨?_, ?_, ?_⟩
  · rw [run_report, h2, h1]
    simp [sumDayTime]
  · rw [run_report, h3]
    simp [sumDaySessions]
  · rw [run_report, h4]
    simp [sumDayRequests]

/-- C7: on empty input `analyze_sessions` returns `[]` rather than
raising, and the top-level analysis short-circuits to its terminal
"no data" result (`None`) without producing any session or per-day data. -/
theorem claim7_empty_input (G : Int) (dayKey : Int → String) :
    analyze_sessions [] G = [] ∧
    analyze_burp_project_core [] G dayKey = none :=
  ⟨rfl, rfl⟩

/-- C9: `analyze_sessions` is total beyond its documented precondition:
for every integer list `T` (not necessarily sorted) and every integer gap
(including zero and negative), the request counts of the output still sum
to `len(T)`, and the output is empty exactly when the input is. -/
theorem claim9_total_and_conservation (T : List Int) (G : Int) :
    sumRequests (analyze_sessions T G) = T.length ∧
    (analyze_sessions T G = [] ↔ T = []) := by
  cases T with
  | nil => simp [analyze_sessions, sumRequests]
  | cons t rest =>
    constructor
    · rw [analyze_sessions, analyzeLoop_sumRequests]
      simp [Nat.add_comm]
    · constructor
      · intro h
        exact absurd h (analyzeLoop_ne_nil _ _ _)
      · intro h
        exact absurd h (by simp)

/-- C10: `analyze_burp_project` returns `None` exactly when extraction
yielded no timestamps; with at least one timestamp it returns the
structured summary. -/
theorem claim10_none_iff_empty (T : List Int) (G : Int)
    (dayKey : Int → String) :
    (analyze_burp_project_core T G dayKey = none ↔ T = []) ∧
    ((∃ s : Summary, analyze_burp_project_core T G dayKey = some s) ↔
      T ≠ []) := by
  cases T with
  | nil => simp [analyze_burp_project_core]
  | cons t rest => simp [analyze_burp_project_core]

/-- C1: for every non-decreasing timestamp list `T` and gap threshold
`G > 0` minutes, `analyze_sessions T G` returns sessions whose request
counts sum to `len(T)`, each well-formed (`start ≤ end`), with each
adjacent pair separated by strictly more than `G` converted to
milliseconds, hence pairwise disjoint in time and ordered by start. -/
theorem claim1_analyze_sessions_partition (T : List Int) (G : Int)
    (hT : List.Chain' (fun a b : Int => a ≤ b) T) (hG : 0 < G) :
    sumRequests (analyze_sessions T G) = T.length ∧
    (∀ s ∈ analyze_sessions T G, s.start ≤ s.stop) ∧
    List.Chain' (fun a b => b.start - a.stop > G * 60 * 1000)
      (analyze_sessions T G) ∧
    List.Pairwise (fun a b => a.stop < b.start) (analyze_sessions T G) ∧
    List.Pairwise (fun a b => a.start < b.start) (analyze_sessions T G) := by
  cases T with
  | nil => simp [analyze_sessions, sumRequests]
  | cons t rest =>
    have hc : List.Chain (fun a b : Int => a ≤ b) t rest := hT
    obtain ⟨inv1, inv2, _⟩ :=
      analyzeLoop_invariant (G * 60 * 1000) ⟨t, t, 1⟩ rest le_rfl hc
    have hsum : sumRequests (analyze_sessions (t :: rest) G) =
        (t :: rest).length := by
      rw [analyze_sessions, analyzeLoop_sumRequests]
      simp [Nat.add_comm]
    have hwf : ∀ s ∈ analyze_sessions (t :: rest) G, s.start ≤ s.stop :=
      inv1
    have hchain : List.Chain' (fun a b => b.start - a.stop > G * 60 * 1000)
        (analyze_sessions (t :: rest) G) := inv2
    have hgap : (0 : Int) < G * 60 * 1000 := by omega
    have hsep : List.Pairwise (fun a b => a.stop < b.start)
        (analyze_sessions (t :: rest) G) := by
      refine chain'_sep_pairwise _ hwf (hchain.imp ?_)
      intro a b hab
      omega
    have hstarts : List.Pairwise (fun a b => a.start < b.start)
        (analyze_sessions (t :: rest) G) := by
      refine hsep.imp_of_mem ?_
      intro a b ha _ hab
      have := hwf a ha
      omega
    exact ⟨hsum, hwf, hchain, hsep, hstarts⟩

theorem claim1_witness :
    sumRequests
        (analyze_sessions [1770000000000, 1770000060000, 1770003600000] 30) =
      ([1770000000000, 1770000060000, 1770003600000] : List Int).length ∧
    (∀ s ∈ analyze_sessions [1770000000000, 1770000060000, 1770003600000] 30,
      s.start ≤ s.stop) ∧
    List.Chain' (fun a b => b.start - a.stop > 30 * 60 * 1000)
      (analyze_sessions [1770000000000, 1770000060000, 1770003600000] 30) ∧
    List.Pairwise (fun a b => a.stop < b.start)
      (analyze_sessions [1770000000000, 1770000060000, 1770003600000] 30) ∧
    List.Pairwise (fun a b => a.start < b.start)
      (analyze_sessions [1770000000000, 1770000060000, 1770003600000] 30) :=
  claim1_analyze_sessions_partition
    [1770000000000, 1770000060000, 1770003600000] 30
    (by norm_num [List.chain'_cons]) (by norm_num)

/-- C4: clustering is idempotent.  Instrumenting `analyze_sessions` with
the member timestamps assigned to each output session, the projection onto
sessions agrees with `analyze_sessions`, and re-clustering the
concatenation of the member lists (in session order) with the same gap
yields the identical session list. -/
theorem claim4_clustering_idempotent (T : List Int) (G : Int)
    (hT : List.Chain' (fun a b : Int => a ≤ b) T) (_hG : 0 < G) :
    (analyze_sessions_members T G).map Prod.fst = analyze_sessions T G ∧
    analyze_sessions (((analyze_sessions_members T G).map Prod.snd).flatten)
        G =
      analyze_sessions T G := by
  constructor
  · cases T with
    | nil => simp [analyze_sessions_members, analyze_sessions]
    | cons t rest =>
      rw [analyze_sessions_members, analyze_sessions,
        analyzeLoopMembers_fst]
  · rw [analyze_sessions_members_flatten]

theorem claim4_witness :
    (analyze_sessions_members [1770000000000, 1770000060000, 1770003600000]
        30).map Prod.fst =
      analyze_sessions [1770000000000, 1770000060000, 1770003600000] 30 ∧
    analyze_sessions
        (((analyze_sessions_members
            [1770000000000, 1770000060000, 1770003600000] 30).map
          Prod.snd).flatten) 30 =
      analyze_sessions [1770000000000, 1770000060000, 1770003600000] 30 :=
  claim4_clustering_idempotent [1770000000000, 1770000060000, 1770003600000]
    30 (by norm_num [List.chain'_cons]) (by norm_num)

/-- C6: if every consecutive pair of a non-empty non-decreasing `T` is
within the gap threshold, one session results, spanning from the minimum
(the head) to the maximum (the last) with request count `len(T)`; dually,
if every consecutive gap strictly exceeds the threshold, every timestamp
becomes its own singleton session. -/
theorem claim6_coalesce_and_split (T : List Int) (G : Int) (hne : T ≠ []) :
    (List.Chain' (fun a b : Int => a ≤ b) T →
      List.Chain' (fun a b : Int => b - a ≤ G * 60 * 1000) T →
      analyze_sessions T G = [⟨T.head hne, T.getLast hne, T.length⟩] ∧
      (∀ x ∈ T, T.head hne ≤ x ∧ x ≤ T.getLast hne)) ∧
    (List.Chain' (fun a b : Int => b - a > G * 60 * 1000) T →
      analyze_sessions T G = T.map (fun t => ⟨t, t, 1⟩)) := by
  cases T with
  | nil => exact absurd rfl hne
  | cons t rest =>
    constructor
    · intro hsort hgap
      have hcs : List.Chain (fun a b : Int => a ≤ b) t rest := hsort
      have hcg : List.Chain (fun a b : Int => b - a ≤ G * 60 * 1000) t
          rest := hgap
      constructor
      · rw [analyze_sessions, analyzeLoop_one_session _ _ _ hcg]
        simp only [List.head_cons, List.length_cons]
        congr 1
        congr 1
        omega
      · intro x hx
        constructor
        · rcases List.mem_cons.mp hx with rfl | hxt
          · simp
          · simpa using chain'_head_le t rest hcs x hxt
        · exact chain'_le_getLast (t :: rest) hsort hne x hx
    · intro hgap
      have hcg : List.Chain (fun a b : Int => b - a > G * 60 * 1000) t
          rest := hgap
      rw [analyze_sessions, analyzeLoop_all_split _ _ _ hcg]
      simp

theorem claim6_witness :
    (analyze_sessions [1000, 2000, 3000] 99999 =
      [⟨([1000, 2000, 3000] : List Int).head (by decide),
        ([1000, 2000, 3000] : List Int).getLast (by decide),
        ([1000, 2000, 3000] : List Int).length⟩] ∧
     (∀ x ∈ ([1000, 2000, 3000] : List Int),
        ([1000, 2000, 3000] : List Int).head (by decide) ≤ x ∧
        x ≤ ([1000, 2000, 3000] : List Int).getLast (by decide))) ∧
    analyze_sessions [0, 1800001] 30 =
      ([0, 1800001] : List Int).map (fun t => ⟨t, t, 1⟩) :=
  ⟨(claim6_coalesce_and_split [1000, 2000, 3000] 99999 (by decide)).1
      (by norm_num [List.chain'_cons]) (by norm_num [List.chain'_cons]),
   (claim6_coalesce_and_split [0, 1800001] 30 (by decide)).2
      (by norm_num [List.chain'_cons])⟩

/-- C8: `format_duration` maps negative input to `"0s"`, and each
non-negative millisecond value to exactly one of three forms by magnitude
with integer truncation: hours+minutes at or above one hour (minutes shown
even if zero), minutes+seconds below one hour but at or above one minute,
seconds only below one minute; in particular 3661000 ms is "1h 1m",
61000 ms is "1m 1s", 5000 ms is "5s" and -100 ms is "0s". -/
theorem claim8_format_duration :
    (∀ ms : Int, ms < 0 → format_duration ms = "0s") ∧
    (∀ ms : Int, 3600000 ≤ ms →
      format_duration ms =
        toString (ms.toNat / 3600000) ++ "h " ++
          toString (ms.toNat % 3600000 / 60000) ++ "m") ∧
    (∀ ms : Int, 60000 ≤ ms → ms < 3600000 →
      format_duration ms =
        toString (ms.toNat / 60000) ++ "m " ++
          toString (ms.toNat % 60000 / 1000) ++ "s") ∧
    (∀ ms : Int, 0 ≤ ms → ms < 60000 →
      format_duration ms = toString (ms.toNat / 1000) ++ "s") ∧
    format_duration 3661000 = "1h 1m" ∧
    format_duration 61000 = "1m 1s" ∧
    format_duration 5000 = "5s" ∧
    format_duration (-100) = "0s" := by
  refine ⟨?_, ?_, ?_, ?_, by decide, by decide, by decide, by decide⟩
  · intro ms h
    simp only [format_duration]
    rw [if_pos h]
  · intro ms h
    have h0 : ¬ ms < 0 := by omega
    have hN : 3600000 ≤ ms.toNat := by omega
    simp only [format_duration]
    rw [if_neg h0]
    have hh : ms.toNat / 1000 / 3600 > 0 := by omega
    rw [if_pos hh]
    have e1 : ms.toNat / 1000 / 3600 = ms.toNat / 3600000 := by omega
    have e2 : ms.toNat / 1000 % 3600 / 60 = ms.toNat % 3600000 / 60000 := by
      omega
    rw [e1, e2]
  · intro ms h1 h2
    have h0 : ¬ ms < 0 := by omega
    have hN1 : 60000 ≤ ms.toNat := by omega
    have hN2 : ms.toNat < 3600000 := by omega
    simp only [format_duration]
    rw [if_neg h0]
    have hh : ¬ ms.toNat / 1000 / 3600 > 0 := by omega
    rw [if_neg hh]
    have hm : ms.toNat / 1000 % 3600 / 60 > 0 := by omega
    rw [if_pos hm]
    have e1 : ms.toNat / 1000 % 3600 / 60 = ms.toNat / 60000 := by omega
    have e2 : ms.toNat / 1000 % 60 = ms.toNat % 60000 / 1000 := by omega
    rw [e1, e2]
  · intro ms h1 h2
    have h0 : ¬ ms < 0 := by omega
    have hN : ms.toNat < 60000 := by omega
    simp only [format_duration]
    rw [if_neg h0]
    have hh : ¬ ms.toNat / 1000 / 3600 > 0 := by omega
    rw [if_neg hh]
    have hm : ¬ ms.toNat / 1000 % 3600 / 60 > 0 := by omega
    rw [if_neg hm]
    have e1 : ms.toNat / 1000 % 60 = ms.toNat / 1000 := by omega
    rw [e1]

theorem claim8_witness :
    ((-100 : Int) < 0 ∧ format_duration (-100) = "0s") ∧
    ((3600000 : Int) ≤ 3661000 ∧
      format_duration 3661000 =
        toString ((3661000 : Int).toNat / 3600000) ++ "h " ++
          toString ((3661000 : Int).toNat % 3600000 / 60000) ++ "m") ∧
    ((60000 : Int) ≤ 61000 ∧ (61000 : Int) < 3600000 ∧
      format_duration 61000 =
        toString ((61000 : Int).toNat / 60000) ++ "m " ++
          toString ((61000 : Int).toNat % 60000 / 1000) ++ "s") ∧
    ((0 : Int) ≤ 5000 ∧ (5000 : Int) < 60000 ∧
      format_duration 5000 = toString ((5000 : Int).toNat / 1000) ++ "s") :=
  ⟨⟨by decide, claim8_format_duration.1 (-100) (by decide)⟩,
   ⟨by decide, (claim8_format_duration.2.1) 3661000 (by decide)⟩,
   ⟨by decide, by decide,
     (claim8_format_duration.2.2.1) 61000 (by decide) (by decide)⟩,
   ⟨by decide, by decide,
     (claim8_format_duration.2.2.2.1) 5000 (by decide) (by decide)⟩⟩

end BurpTimeAnalyzer
